import Mathlib

/-!
Formal model of the kCSD repository files `KCSD3D_Helpers.py` and
`MoIKCSD.py` (forward-model integrand of class `MoIKCSD`).

NumPy scalar arithmetic on floats is modelled over `ℝ`:
`t ** 0.5` on a nonnegative argument becomes `Real.sqrt`,
`np.ceil` becomes `Int.ceil`, `np.round` (rounding half to even)
becomes `roundHalfEven`, `np.arcsinh` becomes `Real.arsinh`, float
division is `ℝ` division, and a NumPy boolean factor `(cond)`
multiplied into a float expression becomes `if cond then 1 else 0`.
`np.linspace a b num` is modelled by the index function `linspace`;
the `np.meshgrid` of the three linspace axes in `make_src_3D` is
represented by the axis sequences themselves together with the
per-axis counts.  A center argument `mu` (`[0, 0, 0]` at call sites)
is modelled as a triple `ℝ × ℝ × ℝ`.
-/

open MeasureTheory

/-- `np.round x`: rounding to the nearest integer, ties to even. -/
noncomputable def roundHalfEven (x : ℝ) : ℤ :=
  if x - ⌊x⌋ < 1 / 2 then ⌊x⌋
  else if 1 / 2 < x - ⌊x⌋ then ⌊x⌋ + 1
  else if Even ⌊x⌋ then ⌊x⌋ else ⌊x⌋ + 1

/-- `np.max` of a float array; the empty case is junk (NumPy raises). -/
noncomputable def npmax : List ℝ → ℝ
  | [] => 0
  | x :: xs => xs.foldl max x

/-- `np.min` of a float array; the empty case is junk (NumPy raises). -/
noncomputable def npmin : List ℝ → ℝ
  | [] => 0
  | x :: xs => xs.foldl min x

/-- `np.linspace a b num`, viewed as a function of the index
`i = 0, …, num - 1`: for `num ≥ 2` the points are
`a + i * (b - a) / (num - 1)`; `num ≤ 1` yields the single point `a`. -/
noncomputable def linspace (a b : ℝ) (num : ℤ) : ℤ → ℝ :=
  fun i => if num ≤ 1 then a else a + (i : ℝ) * ((b - a) / ((num : ℝ) - 1))

/-- `gauss_rescale_3D` from `KCSD3D_Helpers.py`:
`stdev = three_stdev/3.0`, `h = 1./(((2*np.pi)**0.5) * stdev)**3`,
`c = 0.5 * stdev**(-2)`, returns `h * exp(-c * dist²(point, mu))`. -/
noncomputable def gauss_rescale_3D (x y z : ℝ) (mu : ℝ × ℝ × ℝ)
    (three_stdev : ℝ) : ℝ :=
  let stdev := three_stdev / 3
  let h := 1 / (Real.sqrt (2 * Real.pi) * stdev) ^ 3
  let c := 0.5 * stdev ^ (-2 : ℤ)
  h * Real.exp (-c * ((x - mu.1) ^ 2 + (y - mu.2.1) ^ 2 + (z - mu.2.2) ^ 2))

/-- `gauss_rescale_lim_3D` from `KCSD3D_Helpers.py`: the Gaussian value
multiplied by the boolean factor `dist²(point, mu) < three_stdev²`. -/
noncomputable def gauss_rescale_lim_3D (x y z : ℝ) (mu : ℝ × ℝ × ℝ)
    (three_stdev : ℝ) : ℝ :=
  gauss_rescale_3D x y z mu three_stdev *
    (if (x - mu.1) ^ 2 + (y - mu.2.1) ^ 2 + (z - mu.2.2) ^ 2 < three_stdev ^ 2
     then 1 else 0)

/-- `step_rescale_3D` from `KCSD3D_Helpers.py`:
`s = 3/(4*np.pi*R**3)*(xp**2 + yp**2 + zp**2 <= R**2)`.
Note that the source tests `xp**2 + yp**2 + zp**2`, never using `mu`. -/
noncomputable def step_rescale_3D (xp yp zp : ℝ) (mu : ℝ × ℝ × ℝ)
    (R : ℝ) : ℝ :=
  3 / (4 * Real.pi * R ^ 3) * (if xp ^ 2 + yp ^ 2 + zp ^ 2 ≤ R ^ 2 then 1 else 0)

/-- `int_pot_3D` from `KCSD3D_Helpers.py`: distance from the
integration point to the field point `(x, 0, 0)`, clamped below at
`0.00001`, reciprocal weighted by the basis function at `mu = [0,0,0]`.
The parameter `h` is accepted and unused, as in the source. -/
noncomputable def int_pot_3D (xp yp zp x R h : ℝ)
    (basis_func : ℝ → ℝ → ℝ → ℝ × ℝ × ℝ → ℝ → ℝ) : ℝ :=
  let y0 := Real.sqrt ((x - xp) ^ 2 + yp ^ 2 + zp ^ 2)
  let y := if y0 < 0.00001 then 0.00001 else y0
  1.0 / y * basis_func xp yp zp (0, 0, 0) R

/-- The weight ratio `W_TS = (sigma - sigma_S) / (sigma + sigma_S)`
computed once in `MoIKCSD.__init__` (Eq 6, Ness 2015). -/
noncomputable def W_TS (sigma sigma_S : ℝ) : ℝ :=
  (sigma - sigma_S) / (sigma + sigma_S)

/-- `MoIKCSD.int_pot_2D_moi`.  The instance state
`iters = np.arange(MoI_iters) + 1` and `iter_factor = W_TS ** iters`
is modelled by summing over `k ∈ range MoI_iters` with image index
`k + 1`.  `L` is the lateral distance clamped below at `0.00001`;
`correction` is the elementwise image-series term, and the basis
function is evaluated at `dist = sqrt(xp² + yp²)`. -/
noncomputable def int_pot_2D_moi (MoI_iters : ℕ) (W : ℝ)
    (xp yp x R h : ℝ) (basis_func : ℝ → ℝ → ℝ) : ℝ :=
  let L0 := Real.sqrt ((x - xp) ^ 2 + yp ^ 2)
  let L := if L0 < 0.00001 then 0.00001 else L0
  let pot := Real.arsinh (h / L) +
    ∑ k in Finset.range MoI_iters,
      W ^ (k + 1) *
        (Real.arsinh ((h - 2 * h * ((k : ℝ) + 1)) / L) +
         Real.arsinh ((h + 2 * h * ((k : ℝ) + 1)) / L))
  let dist := Real.sqrt (xp ^ 2 + yp ^ 2)
  pot * basis_func dist R

/-- Modelled from the spec, for comparison with `int_pot_2D_moi`:
`[asinh(h/L) + Σ_{k=1..M} W^k (asinh((h-2hk)/L) + asinh((h+2hk)/L))]
· b(sqrt(xp²+yp²), R)` with `W = (σ-σ_S)/(σ+σ_S)` and
`L = max(sqrt((x-xp)² + yp²), 1e-5)`. -/
noncomputable def int_pot_2D_moi_spec (M : ℕ) (sigma sigma_S : ℝ)
    (xp yp x R h : ℝ) (b : ℝ → ℝ → ℝ) : ℝ :=
  let L := max (Real.sqrt ((x - xp) ^ 2 + yp ^ 2)) 0.00001
  let W := (sigma - sigma_S) / (sigma + sigma_S)
  (Real.arsinh (h / L) +
    ∑ k in Finset.range M,
      W ^ (k + 1) *
        (Real.arsinh ((h - 2 * h * ((k : ℝ) + 1)) / L) +
         Real.arsinh ((h + 2 * h * ((k : ℝ) + 1)) / L))) *
    b (Real.sqrt (xp ^ 2 + yp ^ 2)) R

/-- Return value of `get_src_params_3D`:
`(nx, ny, nz, Lx_n, Ly_n, Lz_n, ds)`. -/
structure SrcParams3D where
  nx : ℤ
  ny : ℤ
  nz : ℤ
  Lx_n : ℝ
  Ly_n : ℝ
  Lz_n : ℝ
  ds : ℝ

/-- `get_src_params_3D` from `KCSD3D_Helpers.py`:
`V = Lx*Ly*Lz`, `V_unit = V/n_src`, `L_unit = V_unit**(1/3)`,
`nx = ceil(Lx/L_unit)` (similarly `ny`, `nz`), `ds = Lx/(nx-1)`,
`Lx_n = (nx-1)*ds` (similarly `Ly_n`, `Lz_n`). -/
noncomputable def get_src_params_3D (Lx Ly Lz : ℝ) (n_src : ℕ) :
    SrcParams3D :=
  let V := Lx * Ly * Lz
  let V_unit := V / (n_src : ℝ)
  let L_unit := V_unit ^ ((1 : ℝ) / 3)
  let nx : ℤ := ⌈Lx / L_unit⌉
  let ny : ℤ := ⌈Ly / L_unit⌉
  let nz : ℤ := ⌈Lz / L_unit⌉
  let ds := Lx / ((nx : ℝ) - 1)
  ⟨nx, ny, nz, ((nx : ℝ) - 1) * ds, ((ny : ℝ) - 1) * ds, ((nz : ℝ) - 1) * ds,
    ds⟩

/-- Return value of `make_src_3D`: the meshgrid `(X_src, Y_src, Z_src)`
is represented by its three linspace axes and per-axis counts, and `R`
is the snapped radius. -/
structure SrcGrid3D where
  lin_x : ℤ → ℝ
  lin_y : ℤ → ℝ
  lin_z : ℤ → ℝ
  nx : ℤ
  ny : ℤ
  nz : ℤ
  R : ℝ

/-- `make_src_3D` from `KCSD3D_Helpers.py`. -/
noncomputable def make_src_3D (X Y Z : List ℝ) (n_src : ℕ)
    (ext_x ext_y ext_z R_init : ℝ) : SrcGrid3D :=
  let Lx := npmax X - npmin X
  let Ly := npmax Y - npmin Y
  let Lz := npmax Z - npmin Z
  let Lx_n := Lx + 2 * ext_x
  let Ly_n := Ly + 2 * ext_y
  let Lz_n := Lz + 2 * ext_z
  let p := get_src_params_3D Lx_n Ly_n Lz_n n_src
  let ext_x_n := (p.Lx_n - Lx) / 2
  let ext_y_n := (p.Ly_n - Ly) / 2
  let ext_z_n := (p.Lz_n - Lz) / 2
  let d : ℤ := roundHalfEven (R_init / p.ds)
  { lin_x := linspace (npmin X - ext_x_n) (npmax X + ext_x_n) p.nx
    lin_y := linspace (npmin Y - ext_y_n) (npmax Y + ext_y_n) p.ny
    lin_z := linspace (npmin Z - ext_z_n) (npmax Z + ext_z_n) p.nz
    nx := p.nx
    ny := p.ny
    nz := p.nz
    R := (d : ℝ) * p.ds }

/-- The `SrcParams3D` value computed inside `make_src_3D` for the given
inputs (the call on lines 100–103 of `KCSD3D_Helpers.py`). -/
noncomputable def src_params (X Y Z : List ℝ) (n_src : ℕ)
    (ext_x ext_y ext_z : ℝ) : SrcParams3D :=
  get_src_params_3D (npmax X - npmin X + 2 * ext_x)
    (npmax Y - npmin Y + 2 * ext_y) (npmax Z - npmin Z + 2 * ext_z) n_src

/-- The grid spacing `ds` computed inside `make_src_3D`. -/
noncomputable def src_ds (X Y Z : List ℝ) (n_src : ℕ)
    (ext_x ext_y ext_z : ℝ) : ℝ :=
  (src_params X Y Z n_src ext_x ext_y ext_z).ds

/-- Iterated Lebesgue integral over all of `ℝ³`, innermost variable
last. -/
noncomputable def integral3 (f : ℝ → ℝ → ℝ → ℝ) : ℝ :=
  ∫ x : ℝ, ∫ y : ℝ, ∫ z : ℝ, f x y z

/-- The clamp `if a < c then c else a` used in both integrands equals
`max a c`. -/
theorem ite_clamp_eq_max (a c : ℝ) : (if a < c then c else a) = max a c := by
  rcases lt_or_le a c with h | h
  · rw [if_pos h, max_eq_right h.le]
  · rw [if_neg (not_lt.mpr h), max_eq_left h]

/-- Claim C1: for every integration point `(xp, yp)`, field position
`x`, radius `R`, slice thickness `h` and basis function `b`,
`int_pot_2D_moi` returns
`[asinh(h/L) + Σ_{k=1..M} W^k (asinh((h-2hk)/L) + asinh((h+2hk)/L))]
· b(sqrt(xp²+yp²), R)` with `W = (σ-σ_S)/(σ+σ_S)` and
`L = max(sqrt((x-xp)²+yp²), 1e-5)`. -/
theorem int_pot_2D_moi_eq_spec (M : ℕ) (sigma sigma_S xp yp x R h : ℝ)
    (b : ℝ → ℝ → ℝ) :
    int_pot_2D_moi M (W_TS sigma sigma_S) xp yp x R h b =
      int_pot_2D_moi_spec M sigma sigma_S xp yp x R h b := by
  simp only [int_pot_2D_moi, int_pot_2D_moi_spec, W_TS, ite_clamp_eq_max]

/-- Claim C5: in `int_pot_3D` and `int_pot_2D_moi` the distance from
the integration point to the field point is clamped to a floor of
`1e-5` before being used as a denominator, so the integrand value is
always of the stated form with a denominator at least `1e-5`. -/
theorem int_pot_denominators_clamped (xp yp zp x R h : ℝ)
    (bf : ℝ → ℝ → ℝ → ℝ × ℝ × ℝ → ℝ → ℝ) (M : ℕ)
    (W xq yq xf Rq hq : ℝ) (bq : ℝ → ℝ → ℝ) :
    (∃ y, 0.00001 ≤ y ∧
      int_pot_3D xp yp zp x R h bf = 1 / y * bf xp yp zp (0, 0, 0) R) ∧
    (∃ L, 0.00001 ≤ L ∧
      int_pot_2D_moi M W xq yq xf Rq hq bq =
        (Real.arsinh (hq / L) +
          ∑ k in Finset.range M,
            W ^ (k + 1) *
              (Real.arsinh ((hq - 2 * hq * ((k : ℝ) + 1)) / L) +
               Real.arsinh ((hq + 2 * hq * ((k : ℝ) + 1)) / L))) *
          bq (Real.sqrt (xq ^ 2 + yq ^ 2)) Rq) := by
  constructor
  · refine ⟨max (Real.sqrt ((x - xp) ^ 2 + yp ^ 2 + zp ^ 2)) 0.00001,
      le_max_right _ _, ?_⟩
    simp only [int_pot_3D, ite_clamp_eq_max]
    norm_num
  · refine ⟨max (Real.sqrt ((xf - xq) ^ 2 + yq ^ 2)) 0.00001,
      le_max_right _ _, ?_⟩
    simp only [int_pot_2D_moi, ite_clamp_eq_max]

/-- Claim C6 (code bug): `step_rescale_3D` never reads `mu`.  At the
point `(0,0,0)` with center `mu = (3,0,0)` and `R = 1` the point lies
at distance `3 > R` from the center, so the claimed value is `0`; the
code tests `xp²+yp²+zp² ≤ R²` instead and returns `3/(4π) ≠ 0`. -/
theorem step_rescale_ignores_mu :
    step_rescale_3D 0 0 0 (3, 0, 0) 1 = 3 / (4 * Real.pi) ∧
    (1 : ℝ) ^ 2 <
      ((0 : ℝ) - 3) ^ 2 + ((0 : ℝ) - 0) ^ 2 + ((0 : ℝ) - 0) ^ 2 ∧
    0 < 3 / (4 * Real.pi) := by
  refine ⟨?_, by norm_num, ?_⟩
  · simp only [step_rescale_3D]
    norm_num
  · have hπ := Real.pi_pos
    positivity

/-- Claim C7: `gauss_rescale_3D` is the isotropic 3D Gaussian density
with standard deviation `R/3`, and it is positive at every point. -/
theorem gauss_rescale_matches (x y z : ℝ) (mu : ℝ × ℝ × ℝ) (R : ℝ)
    (hR : 0 < R) :
    gauss_rescale_3D x y z mu R =
      (1 / (Real.sqrt (2 * Real.pi) * (R / 3))) ^ 3 *
        Real.exp (-(((x - mu.1) ^ 2 + (y - mu.2.1) ^ 2 + (z - mu.2.2) ^ 2) /
          (2 * (R / 3) ^ 2))) ∧
    0 < gauss_rescale_3D x y z mu R := by
  have hs : (0 : ℝ) < R / 3 := by linarith
  have hbase : (0 : ℝ) < Real.sqrt (2 * Real.pi) * (R / 3) :=
    mul_pos (Real.sqrt_pos.mpr (by positivity)) hs
  constructor
  · simp only [gauss_rescale_3D]
    rw [one_div_pow]
    congr 1
    congr 1
    rw [zpow_neg, zpow_two]
    have hne : R / 3 ≠ 0 := ne_of_gt hs
    field_simp
    ring
  · simp only [gauss_rescale_3D]
    exact mul_pos (by positivity) (Real.exp_pos _)

/-- Witness for C7 at the concrete input `(0,0,0)`, `mu = (0,0,0)`,
`R = 3`. -/
theorem gauss_rescale_matches_w :
    gauss_rescale_3D 0 0 0 (0, 0, 0) 3 =
      (1 / (Real.sqrt (2 * Real.pi) * ((3 : ℝ) / 3))) ^ 3 *
        Real.exp (-((((0 : ℝ) - 0) ^ 2 + ((0 : ℝ) - 0) ^ 2 +
          ((0 : ℝ) - 0) ^ 2) / (2 * ((3 : ℝ) / 3) ^ 2))) ∧
    0 < gauss_rescale_3D 0 0 0 (0, 0, 0) 3 :=
  gauss_rescale_matches 0 0 0 (0, 0, 0) 3 (by norm_num)

/-- Claim C9 (counterexample): at `mu = (3,0,0)`, `R = 1`, the point
`(4,0,0)` is at distance exactly `R` from the center, yet
`step_rescale_3D` returns `0`, not the claimed `3/(4πR³) ≠ 0`,
because the source ignores `mu`. -/
theorem step_boundary_claim_cex :
    ((4 : ℝ) - 3) ^ 2 + ((0 : ℝ) - 0) ^ 2 + ((0 : ℝ) - 0) ^ 2 =
      (1 : ℝ) ^ 2 ∧
    step_rescale_3D 4 0 0 (3, 0, 0) 1 = 0 ∧
    (0 : ℝ) < 3 / (4 * Real.pi * (1 : ℝ) ^ 3) := by
  refine ⟨by norm_num, ?_, ?_⟩
  · simp only [step_rescale_3D]
    rw [if_neg (by norm_num), mul_zero]
  · have hπ := Real.pi_pos
    positivity

/-- Claim C9 (amended): with the center `(0,0,0)` that callers always
pass, a point at squared distance exactly `R²` from the origin is
included by `step_rescale_3D` (value `3/(4πR³)`, via `≤`) and excluded
by `gauss_rescale_lim_3D` (value `0`, via strict `<`). -/
theorem step_includes_gauss_lim_excludes_boundary (R xp yp zp : ℝ)
    (hR : 0 < R) (hb : xp ^ 2 + yp ^ 2 + zp ^ 2 = R ^ 2) :
    step_rescale_3D xp yp zp (0, 0, 0) R = 3 / (4 * Real.pi * R ^ 3) ∧
    gauss_rescale_lim_3D xp yp zp (0, 0, 0) R = 0 := by
  constructor
  · simp only [step_rescale_3D]
    rw [if_pos (le_of_eq hb), mul_one]
  · simp only [gauss_rescale_lim_3D, sub_zero]
    rw [if_neg (by rw [hb]; exact lt_irrefl _), mul_zero]

/-- Witness for the amended C9 at `R = 1` and boundary point
`(1, 0, 0)`. -/
theorem step_includes_gauss_lim_excludes_boundary_w :
    step_rescale_3D 1 0 0 (0, 0, 0) 1 = 3 / (4 * Real.pi * (1 : ℝ) ^ 3) ∧
    gauss_rescale_lim_3D 1 0 0 (0, 0, 0) 1 = 0 :=
  step_includes_gauss_lim_excludes_boundary 1 1 0 0 (by norm_num)
    (by norm_num)

/-- `roundHalfEven` picks a nearest integer: no integer is strictly
closer. -/
theorem roundHalfEven_nearest (x : ℝ) (k : ℤ) :
    |(roundHalfEven x : ℝ) - x| ≤ |(k : ℝ) - x| := by
  have hf : (⌊x⌋ : ℝ) ≤ x := Int.floor_le x
  have hc : x < (⌊x⌋ : ℝ) + 1 := Int.lt_floor_add_one x
  have habs1 : (k : ℝ) - x ≤ |(k : ℝ) - x| := le_abs_self _
  have habs2 : x - (k : ℝ) ≤ |(k : ℝ) - x| := by
    rw [abs_sub_comm]; exact le_abs_self _
  have hk : (k : ℝ) ≤ (⌊x⌋ : ℝ) ∨ (⌊x⌋ : ℝ) + 1 ≤ (k : ℝ) := by
    rcases le_or_lt k ⌊x⌋ with h | h
    · exact Or.inl (by exact_mod_cast h)
    · exact Or.inr (by exact_mod_cast h)
  unfold roundHalfEven
  split_ifs with h1 h2 h3
  · rw [abs_sub_comm, abs_of_nonneg (by linarith)]
    rcases hk with hk | hk
    · linarith
    · linarith
  · push_cast
    rw [abs_of_nonneg (by linarith)]
    rcases hk with hk | hk
    · linarith
    · linarith
  · have hr : x - (⌊x⌋ : ℝ) = 1 / 2 := by linarith
    rw [abs_sub_comm, abs_of_nonneg (by linarith)]
    rcases hk with hk | hk
    · linarith
    · linarith
  · have hr : x - (⌊x⌋ : ℝ) = 1 / 2 := by linarith
    push_cast
    rw [abs_of_nonneg (by linarith)]
    rcases hk with hk | hk
    · linarith
    · linarith

/-- `roundHalfEven` of a value in `[0, 1/2)` is `0`. -/
theorem roundHalfEven_of_lt_half (x : ℝ) (h0 : 0 ≤ x) (hx : x < 1 / 2) :
    roundHalfEven x = 0 := by
  have hfl : ⌊x⌋ = 0 :=
    Int.floor_eq_zero_iff.mpr (Set.mem_Ico.mpr ⟨h0, by linarith⟩)
  unfold roundHalfEven
  rw [hfl]
  rw [if_pos (by push_cast; linarith)]

/-- The snapped value `roundHalfEven (t/ds) * ds` is a multiple of `ds`
nearest to `t`. -/
theorem snap_nearest (t ds : ℝ) (k : ℤ) :
    |(roundHalfEven (t / ds) : ℝ) * ds - t| ≤ |(k : ℝ) * ds - t| := by
  rcases eq_or_ne ds 0 with h | h
  · subst h
    simp
  · have ht : t / ds * ds = t := div_mul_cancel₀ t h
    have key : ∀ m : ℤ, (m : ℝ) * ds - t = ((m : ℝ) - t / ds) * ds := by
      intro m
      rw [sub_mul, ht]
    rw [key, key, abs_mul, abs_mul]
    exact mul_le_mul_of_nonneg_right (roundHalfEven_nearest (t / ds) k)
      (abs_nonneg ds)

/-- Consecutive `linspace` points differ by the uniform step. -/
theorem linspace_step (a b : ℝ) (num i : ℤ) (h : 1 < num) :
    linspace a b num (i + 1) - linspace a b num i =
      (b - a) / ((num : ℝ) - 1) := by
  unfold linspace
  rw [if_neg (not_le.mpr h), if_neg (not_le.mpr h)]
  push_cast
  ring

/-- The x axis of `make_src_3D`, written through `src_params`. -/
theorem make_src_lin_x_def (X Y Z : List ℝ) (n_src : ℕ)
    (ext_x ext_y ext_z R_init : ℝ) :
    (make_src_3D X Y Z n_src ext_x ext_y ext_z R_init).lin_x =
      linspace
        (npmin X - ((src_params X Y Z n_src ext_x ext_y ext_z).Lx_n -
          (npmax X - npmin X)) / 2)
        (npmax X + ((src_params X Y Z n_src ext_x ext_y ext_z).Lx_n -
          (npmax X - npmin X)) / 2)
        (src_params X Y Z n_src ext_x ext_y ext_z).nx := rfl

/-- The y axis of `make_src_3D`, written through `src_params`. -/
theorem make_src_lin_y_def (X Y Z : List ℝ) (n_src : ℕ)
    (ext_x ext_y ext_z R_init : ℝ) :
    (make_src_3D X Y Z n_src ext_x ext_y ext_z R_init).lin_y =
      linspace
        (npmin Y - ((src_params X Y Z n_src ext_x ext_y ext_z).Ly_n -
          (npmax Y - npmin Y)) / 2)
        (npmax Y + ((src_params X Y Z n_src ext_x ext_y ext_z).Ly_n -
          (npmax Y - npmin Y)) / 2)
        (src_params X Y Z n_src ext_x ext_y ext_z).ny := rfl

/-- The z axis of `make_src_3D`, written through `src_params`. -/
theorem make_src_lin_z_def (X Y Z : List ℝ) (n_src : ℕ)
    (ext_x ext_y ext_z R_init : ℝ) :
    (make_src_3D X Y Z n_src ext_x ext_y ext_z R_init).lin_z =
      linspace
        (npmin Z - ((src_params X Y Z n_src ext_x ext_y ext_z).Lz_n -
          (npmax Z - npmin Z)) / 2)
        (npmax Z + ((src_params X Y Z n_src ext_x ext_y ext_z).Lz_n -
          (npmax Z - npmin Z)) / 2)
        (src_params X Y Z n_src ext_x ext_y ext_z).nz := rfl

/-- Claim C3: the radius returned by `make_src_3D` is
`roundHalfEven (R_init/ds) * ds`, an exact integer multiple of the
grid spacing `ds`, and no other multiple of `ds` is closer to
`R_init`. -/
theorem make_src_R_multiple (X Y Z : List ℝ) (n_src : ℕ)
    (ext_x ext_y ext_z R_init : ℝ) :
    (make_src_3D X Y Z n_src ext_x ext_y ext_z R_init).R =
      (roundHalfEven (R_init / src_ds X Y Z n_src ext_x ext_y ext_z) : ℝ) *
        src_ds X Y Z n_src ext_x ext_y ext_z ∧
    (∃ d : ℤ, (make_src_3D X Y Z n_src ext_x ext_y ext_z R_init).R =
      (d : ℝ) * src_ds X Y Z n_src ext_x ext_y ext_z) ∧
    ∀ k : ℤ,
      |(make_src_3D X Y Z n_src ext_x ext_y ext_z R_init).R - R_init| ≤
        |(k : ℝ) * src_ds X Y Z n_src ext_x ext_y ext_z - R_init| := by
  have hR : (make_src_3D X Y Z n_src ext_x ext_y ext_z R_init).R =
      (roundHalfEven (R_init / src_ds X Y Z n_src ext_x ext_y ext_z) : ℝ) *
        src_ds X Y Z n_src ext_x ext_y ext_z := rfl
  refine ⟨hR, ⟨_, hR⟩, fun k => ?_⟩
  rw [hR]
  exact snap_nearest R_init _ k

/-- Claim C4: in the grid built by `make_src_3D`, consecutive source
coordinates along each axis differ by the single spacing `ds` of
`get_src_params_3D`, on all three axes, even when the per-axis extents
differ. -/
theorem make_src_uniform_spacing (X Y Z : List ℝ) (n_src : ℕ)
    (ext_x ext_y ext_z R_init : ℝ) (i : ℤ) (hi : 0 ≤ i)
    (hx : i + 1 < (src_params X Y Z n_src ext_x ext_y ext_z).nx)
    (hy : i + 1 < (src_params X Y Z n_src ext_x ext_y ext_z).ny)
    (hz : i + 1 < (src_params X Y Z n_src ext_x ext_y ext_z).nz) :
    (make_src_3D X Y Z n_src ext_x ext_y ext_z R_init).lin_x (i + 1) -
        (make_src_3D X Y Z n_src ext_x ext_y ext_z R_init).lin_x i =
      src_ds X Y Z n_src ext_x ext_y ext_z ∧
    (make_src_3D X Y Z n_src ext_x ext_y ext_z R_init).lin_y (i + 1) -
        (make_src_3D X Y Z n_src ext_x ext_y ext_z R_init).lin_y i =
      src_ds X Y Z n_src ext_x ext_y ext_z ∧
    (make_src_3D X Y Z n_src ext_x ext_y ext_z R_init).lin_z (i + 1) -
        (make_src_3D X Y Z n_src ext_x ext_y ext_z R_init).lin_z i =
      src_ds X Y Z n_src ext_x ext_y ext_z := by
  set p := src_params X Y Z n_src ext_x ext_y ext_z with hp
  have hds : src_ds X Y Z n_src ext_x ext_y ext_z = p.ds := rfl
  have hnx : (1 : ℤ) < p.nx := by omega
  have hny : (1 : ℤ) < p.ny := by omega
  have hnz : (1 : ℤ) < p.nz := by omega
  have hnx0 : ((p.nx : ℝ) - 1) ≠ 0 := by
    have : (1 : ℝ) < (p.nx : ℝ) := by exact_mod_cast hnx
    exact ne_of_gt (by linarith)
  have hny0 : ((p.ny : ℝ) - 1) ≠ 0 := by
    have : (1 : ℝ) < (p.ny : ℝ) := by exact_mod_cast hny
    exact ne_of_gt (by linarith)
  have hnz0 : ((p.nz : ℝ) - 1) ≠ 0 := by
    have : (1 : ℝ) < (p.nz : ℝ) := by exact_mod_cast hnz
    exact ne_of_gt (by linarith)
  rw [hds]
  refine ⟨?_, ?_, ?_⟩
  · rw [make_src_lin_x_def, ← hp, linspace_step _ _ _ i hnx]
    rw [show npmax X + (p.Lx_n - (npmax X - npmin X)) / 2 -
        (npmin X - (p.Lx_n - (npmax X - npmin X)) / 2) = p.Lx_n by ring]
    rw [show p.Lx_n = ((p.nx : ℝ) - 1) * p.ds from rfl]
    exact mul_div_cancel_left₀ _ hnx0
  · rw [make_src_lin_y_def, ← hp, linspace_step _ _ _ i hny]
    rw [show npmax Y + (p.Ly_n - (npmax Y - npmin Y)) / 2 -
        (npmin Y - (p.Ly_n - (npmax Y - npmin Y)) / 2) = p.Ly_n by ring]
    rw [show p.Ly_n = ((p.ny : ℝ) - 1) * p.ds from rfl]
    exact mul_div_cancel_left₀ _ hny0
  · rw [make_src_lin_z_def, ← hp, linspace_step _ _ _ i hnz]
    rw [show npmax Z + (p.Lz_n - (npmax Z - npmin Z)) / 2 -
        (npmin Z - (p.Lz_n - (npmax Z - npmin Z)) / 2) = p.Lz_n by ring]
    rw [show p.Lz_n = ((p.nz : ℝ) - 1) * p.ds from rfl]
    exact mul_div_cancel_left₀ _ hnz0

/-- `(1/8)^(1/3) = 1/2` as a real power. -/
theorem rpow_third_eighth : ((1 : ℝ) / 8) ^ ((1 : ℝ) / 3) = 1 / 2 := by
  have h8 : ((1 : ℝ) / 8) = ((1 : ℝ) / 2) ^ (3 : ℕ) := by norm_num
  rw [h8, ← Real.rpow_natCast ((1 : ℝ) / 2) 3,
    ← Real.rpow_mul (by norm_num : (0 : ℝ) ≤ 1 / 2)]
  norm_num

/-- Concrete evaluation: `get_src_params_3D 1 1 1 8` yields
`nx = ny = nz = 2` and `ds = 1`. -/
theorem get_src_params_unit_cube :
    (get_src_params_3D 1 1 1 8).nx = 2 ∧
    (get_src_params_3D 1 1 1 8).ny = 2 ∧
    (get_src_params_3D 1 1 1 8).nz = 2 ∧
    (get_src_params_3D 1 1 1 8).ds = 1 := by
  have hu : ((1 : ℝ) * 1 * 1 / ((8 : ℕ) : ℝ)) ^ ((1 : ℝ) / 3) = 1 / 2 := by
    rw [show ((1 : ℝ) * 1 * 1 / ((8 : ℕ) : ℝ)) = 1 / 8 by norm_num,
      rpow_third_eighth]
  have hc : (⌈(1 : ℝ) / ((1 * 1 * 1 / ((8 : ℕ) : ℝ)) ^ ((1 : ℝ) / 3))⌉ : ℤ) =
      2 := by
    rw [hu, show (1 : ℝ) / (1 / 2) = ((2 : ℤ) : ℝ) by norm_num,
      Int.ceil_intCast]
  refine ⟨?_, ?_, ?_, ?_⟩ <;> simp only [get_src_params_3D] <;> rw [hc] <;>
    norm_num

/-- Concrete evaluation: `npmax [0, 1] = 1`. -/
theorem npmax_01 : npmax [0, 1] = 1 := by
  simp only [npmax, List.foldl_cons, List.foldl_nil]
  exact max_eq_right (by norm_num)

/-- Concrete evaluation: `npmin [0, 1] = 0`. -/
theorem npmin_01 : npmin [0, 1] = 0 := by
  simp only [npmin, List.foldl_cons, List.foldl_nil]
  exact min_eq_left (by norm_num)

/-- The `make_src_3D` inner parameters for `X = Y = Z = [0, 1]`,
`n_src = 8` and no extension reduce to `get_src_params_3D 1 1 1 8`. -/
theorem src_params_unit_lists :
    src_params [0, 1] [0, 1] [0, 1] 8 0 0 0 = get_src_params_3D 1 1 1 8 := by
  simp only [src_params, npmax_01, npmin_01]
  norm_num

/-- Witness for C4 on the grid `X = Y = Z = [0, 1]`, `n_src = 8`:
the realized counts are `2` per axis and the first spacing on each
axis equals `ds`. -/
theorem make_src_uniform_spacing_w :
    (make_src_3D [0, 1] [0, 1] [0, 1] 8 0 0 0 0.23).lin_x 1 -
        (make_src_3D [0, 1] [0, 1] [0, 1] 8 0 0 0 0.23).lin_x 0 =
      src_ds [0, 1] [0, 1] [0, 1] 8 0 0 0 ∧
    (make_src_3D [0, 1] [0, 1] [0, 1] 8 0 0 0 0.23).lin_y 1 -
        (make_src_3D [0, 1] [0, 1] [0, 1] 8 0 0 0 0.23).lin_y 0 =
      src_ds [0, 1] [0, 1] [0, 1] 8 0 0 0 ∧
    (make_src_3D [0, 1] [0, 1] [0, 1] 8 0 0 0 0.23).lin_z 1 -
        (make_src_3D [0, 1] [0, 1] [0, 1] 8 0 0 0 0.23).lin_z 0 =
      src_ds [0, 1] [0, 1] [0, 1] 8 0 0 0 := by
  have hp := src_params_unit_lists
  have hq := get_src_params_unit_cube
  have hx : (0 : ℤ) + 1 < (src_params [0, 1] [0, 1] [0, 1] 8 0 0 0).nx := by
    rw [hp, hq.1]; norm_num
  have hy : (0 : ℤ) + 1 < (src_params [0, 1] [0, 1] [0, 1] 8 0 0 0).ny := by
    rw [hp, hq.2.1]; norm_num
  have hz : (0 : ℤ) + 1 < (src_params [0, 1] [0, 1] [0, 1] 8 0 0 0).nz := by
    rw [hp, hq.2.2.1]; norm_num
  have h := make_src_uniform_spacing [0, 1] [0, 1] [0, 1] 8 0 0 0 0.23 0
    le_rfl hx hy hz
  simpa using h

/-- Claim C2 (counterexample): at the positive extents
`Lx = Ly = Lz = 1` with requested count `n_src = 1`, `get_src_params_3D`
yields `nx = 1`, so the denominator `nx - 1` of `ds = Lx/(nx - 1)` is
zero and `ds` is not positive (the real-arithmetic model returns `0`;
NumPy emits a division-by-zero `inf`). -/
theorem get_src_params_degenerate :
    (get_src_params_3D 1 1 1 1).nx = 1 ∧
    ((get_src_params_3D 1 1 1 1).nx : ℝ) - 1 = 0 ∧
    (get_src_params_3D 1 1 1 1).ds = 0 := by
  have hu : ((1 : ℝ) * 1 * 1 / ((1 : ℕ) : ℝ)) ^ ((1 : ℝ) / 3) = 1 := by
    rw [show ((1 : ℝ) * 1 * 1 / ((1 : ℕ) : ℝ)) = 1 by norm_num, Real.one_rpow]
  have hc : (⌈(1 : ℝ) / ((1 * 1 * 1 / ((1 : ℕ) : ℝ)) ^ ((1 : ℝ) / 3))⌉ : ℤ) =
      1 := by
    rw [hu, div_one, Int.ceil_one]
  refine ⟨?_, ?_, ?_⟩ <;> simp only [get_src_params_3D] <;> rw [hc] <;>
    norm_num

/-- Claim C2 (amended): for positive extents and `n_src ≥ 1` the
per-axis counts are each at least `1`; and whenever the unit cell
length `L_unit = (Lx·Ly·Lz/n_src)^(1/3)` is smaller than `Lx`, the
x-count is at least `2`, so the denominator of `ds = Lx/(nx-1)` is
nonzero and `ds` is positive. -/
theorem get_src_params_counts (Lx Ly Lz : ℝ) (n_src : ℕ)
    (hLx : 0 < Lx) (hLy : 0 < Ly) (hLz : 0 < Lz) (hn : 1 ≤ n_src) :
    1 ≤ (get_src_params_3D Lx Ly Lz n_src).nx ∧
    1 ≤ (get_src_params_3D Lx Ly Lz n_src).ny ∧
    1 ≤ (get_src_params_3D Lx Ly Lz n_src).nz ∧
    ((Lx * Ly * Lz / (n_src : ℝ)) ^ ((1 : ℝ) / 3) < Lx →
      2 ≤ (get_src_params_3D Lx Ly Lz n_src).nx ∧
      0 < (get_src_params_3D Lx Ly Lz n_src).ds) := by
  have hnpos : (0 : ℝ) < (n_src : ℝ) := by
    have : 0 < n_src := hn
    exact_mod_cast this
  have hV : (0 : ℝ) < Lx * Ly * Lz / (n_src : ℝ) :=
    div_pos (mul_pos (mul_pos hLx hLy) hLz) hnpos
  have hLu : (0 : ℝ) < (Lx * Ly * Lz / (n_src : ℝ)) ^ ((1 : ℝ) / 3) :=
    Real.rpow_pos_of_pos hV _
  simp only [get_src_params_3D]
  refine ⟨?_, ?_, ?_, fun hlt => ?_⟩
  · exact Int.ceil_pos.mpr (div_pos hLx hLu)
  · exact Int.ceil_pos.mpr (div_pos hLy hLu)
  · exact Int.ceil_pos.mpr (div_pos hLz hLu)
  · have h1 : (1 : ℝ) < Lx / (Lx * Ly * Lz / (n_src : ℝ)) ^ ((1 : ℝ) / 3) :=
      (one_lt_div hLu).mpr hlt
    have h2 : (1 : ℤ) <
        ⌈Lx / (Lx * Ly * Lz / (n_src : ℝ)) ^ ((1 : ℝ) / 3)⌉ :=
      Int.lt_ceil.mpr (by exact_mod_cast h1)
    refine ⟨h2, ?_⟩
    have h2R : (2 : ℝ) ≤
        ((⌈Lx / (Lx * Ly * Lz / (n_src : ℝ)) ^ ((1 : ℝ) / 3)⌉ : ℤ) : ℝ) := by
      exact_mod_cast h2
    exact div_pos hLx (by linarith)

/-- Witness for the amended C2 at `Lx = Ly = Lz = 1`, `n_src = 8`. -/
theorem get_src_params_counts_w :
    1 ≤ (get_src_params_3D 1 1 1 8).nx ∧
    1 ≤ (get_src_params_3D 1 1 1 8).ny ∧
    1 ≤ (get_src_params_3D 1 1 1 8).nz ∧
    2 ≤ (get_src_params_3D 1 1 1 8).nx ∧
    0 < (get_src_params_3D 1 1 1 8).ds := by
  have h := get_src_params_counts 1 1 1 8 (by norm_num) (by norm_num)
    (by norm_num) (by norm_num)
  have hlt : ((1 : ℝ) * 1 * 1 / ((8 : ℕ) : ℝ)) ^ ((1 : ℝ) / 3) < 1 := by
    rw [show ((1 : ℝ) * 1 * 1 / ((8 : ℕ) : ℝ)) = 1 / 8 by norm_num,
      rpow_third_eighth]
    norm_num
  exact ⟨h.1, h.2.1, h.2.2.1, (h.2.2.2 hlt).1, (h.2.2.2 hlt).2⟩

/-- Claim C10: whenever `0 < R_init < ds/2`, the snap
`round(R_init/ds) * ds` in `make_src_3D` returns a radius of exactly
`0` — it does not preserve positivity of the requested radius. -/
theorem make_src_R_zero (X Y Z : List ℝ) (n_src : ℕ)
    (ext_x ext_y ext_z R_init : ℝ) (h0 : 0 < R_init)
    (hlt : R_init < src_ds X Y Z n_src ext_x ext_y ext_z / 2) :
    (make_src_3D X Y Z n_src ext_x ext_y ext_z R_init).R = 0 := by
  set ds := src_ds X Y Z n_src ext_x ext_y ext_z with hds
  have hdspos : 0 < ds := by linarith
  have ht0 : 0 ≤ R_init / ds := le_of_lt (div_pos h0 hdspos)
  have ht : R_init / ds < 1 / 2 := by
    rw [div_lt_iff hdspos]
    linarith
  have hR : (make_src_3D X Y Z n_src ext_x ext_y ext_z R_init).R =
      (roundHalfEven (R_init / ds) : ℝ) * ds := rfl
  rw [hR, roundHalfEven_of_lt_half _ ht0 ht]
  simp

/-- Witness for C10: on the grid `X = Y = Z = [0, 1]`, `n_src = 8`
(`ds = 1`), the strictly positive request `R_init = 0.4 < ds/2` is
snapped to `R = 0`. -/
theorem make_src_R_zero_w :
    (0 : ℝ) < 0.4 ∧
    (0.4 : ℝ) < src_ds [0, 1] [0, 1] [0, 1] 8 0 0 0 / 2 ∧
    (make_src_3D [0, 1] [0, 1] [0, 1] 8 0 0 0 0.4).R = 0 := by
  have hds : src_ds [0, 1] [0, 1] [0, 1] 8 0 0 0 = 1 := by
    have h1 : src_ds [0, 1] [0, 1] [0, 1] 8 0 0 0 =
        (get_src_params_3D 1 1 1 8).ds := by
      simp only [src_ds, src_params_unit_lists]
    rw [h1, get_src_params_unit_cube.2.2.2]
  refine ⟨by norm_num, by rw [hds]; norm_num, ?_⟩
  exact make_src_R_zero [0, 1] [0, 1] [0, 1] 8 0 0 0 0.4 (by norm_num)
    (by rw [hds]; norm_num)

/-- `gauss_rescale_3D` factors as a product of three one-dimensional
Gaussians. -/
theorem gauss_rescale_prod (x y z : ℝ) (mu : ℝ × ℝ × ℝ) (R : ℝ) :
    gauss_rescale_3D x y z mu R =
      1 / (Real.sqrt (2 * Real.pi) * (R / 3)) ^ 3 *
        (Real.exp (-(0.5 * (R / 3) ^ (-2 : ℤ)) * (x - mu.1) ^ 2) *
         (Real.exp (-(0.5 * (R / 3) ^ (-2 : ℤ)) * (y - mu.2.1) ^ 2) *
          Real.exp (-(0.5 * (R / 3) ^ (-2 : ℤ)) * (z - mu.2.2) ^ 2))) := by
  simp only [gauss_rescale_3D]
  rw [show -(0.5 * (R / 3) ^ (-2 : ℤ)) *
      ((x - mu.1) ^ 2 + (y - mu.2.1) ^ 2 + (z - mu.2.2) ^ 2) =
      -(0.5 * (R / 3) ^ (-2 : ℤ)) * (x - mu.1) ^ 2 +
        (-(0.5 * (R / 3) ^ (-2 : ℤ)) * (y - mu.2.1) ^ 2 +
         -(0.5 * (R / 3) ^ (-2 : ℤ)) * (z - mu.2.2) ^ 2) by ring,
    Real.exp_add, Real.exp_add]

/-- The iterated integral of a normalized triple-product Gaussian cut
off inside a ball of radius `R` is strictly below `1`: the bound comes
from discarding the indicator (bounding by the full Gaussian) on the
slab `|x - m1| ≤ R` and from the vanishing of the cutoff integrand on
the complementary slabs, which carry positive Gaussian mass. -/
theorem cutoff_gaussian3_integral_lt (H c m1 m2 m3 R : ℝ)
    (hH : 0 < H) (hc : 0 < c) (hR : 0 < R)
    (hnorm : H * Real.sqrt (Real.pi / c) ^ 3 = 1) :
    (∫ x : ℝ, ∫ y : ℝ, ∫ z : ℝ,
      H * (Real.exp (-c * (x - m1) ^ 2) *
        (Real.exp (-c * (y - m2) ^ 2) * Real.exp (-c * (z - m3) ^ 2))) *
        (if (x - m1) ^ 2 + (y - m2) ^ 2 + (z - m3) ^ 2 < R ^ 2
         then (1 : ℝ) else 0)) < 1 := by
  have hKpos : (0 : ℝ) < Real.sqrt (Real.pi / c) :=
    Real.sqrt_pos.mpr (div_pos Real.pi_pos hc)
  set K := Real.sqrt (Real.pi / c) with hKdef
  have hint : Integrable (fun t : ℝ => Real.exp (-c * t ^ 2)) :=
    integrable_exp_neg_mul_sq hc
  have hshift : ∀ m : ℝ,
      Integrable (fun t : ℝ => Real.exp (-c * (t - m) ^ 2)) := fun m =>
    hint.comp_sub_right m
  have hshiftI : ∀ m : ℝ,
      (∫ t : ℝ, Real.exp (-c * (t - m) ^ 2)) = K := by
    intro m
    have h1 := integral_sub_right_eq_self (μ := volume)
      (fun u : ℝ => Real.exp (-c * u ^ 2)) m
    rw [hKdef]
    simpa using h1.trans (integral_gaussian c)
  have hnonneg : ∀ x y z : ℝ, 0 ≤
      H * (Real.exp (-c * (x - m1) ^ 2) *
        (Real.exp (-c * (y - m2) ^ 2) * Real.exp (-c * (z - m3) ^ 2))) *
        (if (x - m1) ^ 2 + (y - m2) ^ 2 + (z - m3) ^ 2 < R ^ 2
         then (1 : ℝ) else 0) := by
    intro x y z
    have h1 : (0 : ℝ) ≤ H * (Real.exp (-c * (x - m1) ^ 2) *
        (Real.exp (-c * (y - m2) ^ 2) * Real.exp (-c * (z - m3) ^ 2))) :=
      le_of_lt (mul_pos hH (mul_pos (Real.exp_pos _)
        (mul_pos (Real.exp_pos _) (Real.exp_pos _))))
    split_ifs
    · simpa using h1
    · simp
  have hstep1 : ∀ x y : ℝ,
      (∫ z : ℝ,
        H * (Real.exp (-c * (x - m1) ^ 2) *
          (Real.exp (-c * (y - m2) ^ 2) * Real.exp (-c * (z - m3) ^ 2))) *
          (if (x - m1) ^ 2 + (y - m2) ^ 2 + (z - m3) ^ 2 < R ^ 2
           then (1 : ℝ) else 0)) ≤
      H * (Real.exp (-c * (x - m1) ^ 2) * Real.exp (-c * (y - m2) ^ 2)) *
        K := by
    intro x y
    have hmajInt : Integrable (fun z : ℝ =>
        H * (Real.exp (-c * (x - m1) ^ 2) * Real.exp (-c * (y - m2) ^ 2)) *
          Real.exp (-c * (z - m3) ^ 2)) :=
      (hshift m3).const_mul _
    have hle : ∀ z : ℝ,
        H * (Real.exp (-c * (x - m1) ^ 2) *
          (Real.exp (-c * (y - m2) ^ 2) * Real.exp (-c * (z - m3) ^ 2))) *
          (if (x - m1) ^ 2 + (y - m2) ^ 2 + (z - m3) ^ 2 < R ^ 2
           then (1 : ℝ) else 0) ≤
        H * (Real.exp (-c * (x - m1) ^ 2) * Real.exp (-c * (y - m2) ^ 2)) *
          Real.exp (-c * (z - m3) ^ 2) := by
      intro z
      have hE : H * (Real.exp (-c * (x - m1) ^ 2) *
          (Real.exp (-c * (y - m2) ^ 2) * Real.exp (-c * (z - m3) ^ 2))) =
          H * (Real.exp (-c * (x - m1) ^ 2) * Real.exp (-c * (y - m2) ^ 2)) *
            Real.exp (-c * (z - m3) ^ 2) := by ring
      have hEpos : (0 : ℝ) <
          H * (Real.exp (-c * (x - m1) ^ 2) * Real.exp (-c * (y - m2) ^ 2)) *
            Real.exp (-c * (z - m3) ^ 2) :=
        mul_pos (mul_pos hH (mul_pos (Real.exp_pos _) (Real.exp_pos _)))
          (Real.exp_pos _)
      split_ifs
      · rw [mul_one, hE]
      · rw [mul_zero]
        exact le_of_lt hEpos
    calc (∫ z : ℝ,
        H * (Real.exp (-c * (x - m1) ^ 2) *
          (Real.exp (-c * (y - m2) ^ 2) * Real.exp (-c * (z - m3) ^ 2))) *
          (if (x - m1) ^ 2 + (y - m2) ^ 2 + (z - m3) ^ 2 < R ^ 2
           then (1 : ℝ) else 0)) ≤
        ∫ z : ℝ,
          H * (Real.exp (-c * (x - m1) ^ 2) * Real.exp (-c * (y - m2) ^ 2)) *
            Real.exp (-c * (z - m3) ^ 2) :=
          integral_mono_of_nonneg (ae_of_all _ fun z => hnonneg x y z)
            hmajInt (ae_of_all _ hle)
    _ = H * (Real.exp (-c * (x - m1) ^ 2) * Real.exp (-c * (y - m2) ^ 2)) *
          K := by
        rw [integral_mul_left, hshiftI m3]
  have hstep2 : ∀ x : ℝ,
      (∫ y : ℝ, ∫ z : ℝ,
        H * (Real.exp (-c * (x - m1) ^ 2) *
          (Real.exp (-c * (y - m2) ^ 2) * Real.exp (-c * (z - m3) ^ 2))) *
          (if (x - m1) ^ 2 + (y - m2) ^ 2 + (z - m3) ^ 2 < R ^ 2
           then (1 : ℝ) else 0)) ≤
      H * K * K * Real.exp (-c * (x - m1) ^ 2) := by
    intro x
    have hmajInt : Integrable (fun y : ℝ =>
        H * Real.exp (-c * (x - m1) ^ 2) * K *
          Real.exp (-c * (y - m2) ^ 2)) :=
      (hshift m2).const_mul _
    have hle : ∀ y : ℝ,
        (∫ z : ℝ,
          H * (Real.exp (-c * (x - m1) ^ 2) *
            (Real.exp (-c * (y - m2) ^ 2) * Real.exp (-c * (z - m3) ^ 2))) *
            (if (x - m1) ^ 2 + (y - m2) ^ 2 + (z - m3) ^ 2 < R ^ 2
             then (1 : ℝ) else 0)) ≤
        H * Real.exp (-c * (x - m1) ^ 2) * K *
          Real.exp (-c * (y - m2) ^ 2) := by
      intro y
      refine le_trans (hstep1 x y) (le_of_eq ?_)
      ring
    calc (∫ y : ℝ, ∫ z : ℝ,
        H * (Real.exp (-c * (x - m1) ^ 2) *
          (Real.exp (-c * (y - m2) ^ 2) * Real.exp (-c * (z - m3) ^ 2))) *
          (if (x - m1) ^ 2 + (y - m2) ^ 2 + (z - m3) ^ 2 < R ^ 2
           then (1 : ℝ) else 0)) ≤
        ∫ y : ℝ,
          H * Real.exp (-c * (x - m1) ^ 2) * K *
            Real.exp (-c * (y - m2) ^ 2) :=
          integral_mono_of_nonneg
            (ae_of_all _ fun y => integral_nonneg fun z => hnonneg x y z)
            hmajInt (ae_of_all _ hle)
    _ = H * Real.exp (-c * (x - m1) ^ 2) * K * K := by
        rw [integral_mul_left, hshiftI m2]
    _ = H * K * K * Real.exp (-c * (x - m1) ^ 2) := by ring
  have hFlim_nonneg : ∀ x : ℝ, 0 ≤
      ∫ y : ℝ, ∫ z : ℝ,
        H * (Real.exp (-c * (x - m1) ^ 2) *
          (Real.exp (-c * (y - m2) ^ 2) * Real.exp (-c * (z - m3) ^ 2))) *
          (if (x - m1) ^ 2 + (y - m2) ^ 2 + (z - m3) ^ 2 < R ^ 2
           then (1 : ℝ) else 0) := fun x =>
    integral_nonneg fun y => integral_nonneg fun z => hnonneg x y z
  have hFlim_zero : ∀ x : ℝ, R ^ 2 ≤ (x - m1) ^ 2 →
      (∫ y : ℝ, ∫ z : ℝ,
        H * (Real.exp (-c * (x - m1) ^ 2) *
          (Real.exp (-c * (y - m2) ^ 2) * Real.exp (-c * (z - m3) ^ 2))) *
          (if (x - m1) ^ 2 + (y - m2) ^ 2 + (z - m3) ^ 2 < R ^ 2
           then (1 : ℝ) else 0)) = 0 := by
    intro x hx
    have h1 : ∀ y : ℝ,
        (∫ z : ℝ,
          H * (Real.exp (-c * (x - m1) ^ 2) *
            (Real.exp (-c * (y - m2) ^ 2) * Real.exp (-c * (z - m3) ^ 2))) *
            (if (x - m1) ^ 2 + (y - m2) ^ 2 + (z - m3) ^ 2 < R ^ 2
             then (1 : ℝ) else 0)) = 0 := by
      intro y
      have h0 : (fun z : ℝ =>
          H * (Real.exp (-c * (x - m1) ^ 2) *
            (Real.exp (-c * (y - m2) ^ 2) * Real.exp (-c * (z - m3) ^ 2))) *
            (if (x - m1) ^ 2 + (y - m2) ^ 2 + (z - m3) ^ 2 < R ^ 2
             then (1 : ℝ) else 0)) = fun _ : ℝ => (0 : ℝ) := by
        funext z
        have hcond : ¬ ((x - m1) ^ 2 + (y - m2) ^ 2 + (z - m3) ^ 2 <
            R ^ 2) := by
          push_neg
          nlinarith [sq_nonneg (y - m2), sq_nonneg (z - m3)]
        rw [if_neg hcond, mul_zero]
      rw [h0]
      simp
    have h2 : (fun y : ℝ =>
        ∫ z : ℝ,
          H * (Real.exp (-c * (x - m1) ^ 2) *
            (Real.exp (-c * (y - m2) ^ 2) * Real.exp (-c * (z - m3) ^ 2))) *
            (if (x - m1) ^ 2 + (y - m2) ^ 2 + (z - m3) ^ 2 < R ^ 2
             then (1 : ℝ) else 0)) = fun _ : ℝ => (0 : ℝ) := funext h1
    rw [h2]
    simp
  set F : ℝ → ℝ := fun x => H * K * K * Real.exp (-c * (x - m1) ^ 2)
    with hF
  have hFint : Integrable F := (hshift m1).const_mul _
  have hFpos : ∀ x, 0 < F x := fun x =>
    mul_pos (mul_pos (mul_pos hH hKpos) hKpos) (Real.exp_pos _)
  have hIup : (∫ x : ℝ, ∫ y : ℝ, ∫ z : ℝ,
      H * (Real.exp (-c * (x - m1) ^ 2) *
        (Real.exp (-c * (y - m2) ^ 2) * Real.exp (-c * (z - m3) ^ 2))) *
        (if (x - m1) ^ 2 + (y - m2) ^ 2 + (z - m3) ^ 2 < R ^ 2
         then (1 : ℝ) else 0)) ≤
      ∫ x : ℝ, Set.indicator (Set.Icc (m1 - R) (m1 + R)) F x := by
    refine integral_mono_of_nonneg (ae_of_all _ fun x => hFlim_nonneg x)
      (hFint.indicator measurableSet_Icc) (ae_of_all _ fun x => ?_)
    by_cases hx : x ∈ Set.Icc (m1 - R) (m1 + R)
    · rw [Set.indicator_of_mem hx]
      exact hstep2 x
    · rw [Set.indicator_of_not_mem hx]
      have hx2 : R ^ 2 ≤ (x - m1) ^ 2 := by
        rcases not_and_or.mp ((Set.mem_Icc).not.mp hx) with h | h
        · push_neg at h
          nlinarith [h, hR]
        · push_neg at h
          nlinarith [h, hR]
      exact le_of_eq (hFlim_zero x hx2)
  have hcompl_pos :
      0 < ∫ x in (Set.Icc (m1 - R) (m1 + R))ᶜ, F x := by
    have hmono : Set.Ioi (m1 + R) ⊆
        Function.support F ∩ (Set.Icc (m1 - R) (m1 + R))ᶜ := by
      intro x hx
      refine ⟨ne_of_gt (hFpos x), ?_⟩
      simp only [Set.mem_compl_iff, Set.mem_Icc, not_and_or]
      exact Or.inr (not_le.mpr hx)
    rw [setIntegral_pos_iff_support_of_nonneg_ae
      (ae_of_all _ fun x => (hFpos x).le) hFint.integrableOn]
    refine lt_of_lt_of_le ?_ (measure_mono hmono)
    rw [Real.volume_Ioi]
    exact ENNReal.zero_lt_top
  have hFtotal : (∫ x : ℝ, F x) = H * K ^ 3 := by
    simp only [hF]
    rw [integral_mul_left, hshiftI m1]
    ring
  have hsplit := integral_add_compl (μ := volume)
    measurableSet_Icc (s := Set.Icc (m1 - R) (m1 + R)) hFint
  calc (∫ x : ℝ, ∫ y : ℝ, ∫ z : ℝ,
      H * (Real.exp (-c * (x - m1) ^ 2) *
        (Real.exp (-c * (y - m2) ^ 2) * Real.exp (-c * (z - m3) ^ 2))) *
        (if (x - m1) ^ 2 + (y - m2) ^ 2 + (z - m3) ^ 2 < R ^ 2
         then (1 : ℝ) else 0)) ≤
      ∫ x : ℝ, Set.indicator (Set.Icc (m1 - R) (m1 + R)) F x := hIup
  _ = ∫ x in Set.Icc (m1 - R) (m1 + R), F x :=
      integral_indicator measurableSet_Icc
  _ < ∫ x : ℝ, F x := by linarith
  _ = H * K ^ 3 := hFtotal
  _ = 1 := hnorm

/-- For `R > 0` the iterated integral of `gauss_rescale_lim_3D` over
all of space is strictly less than `1`. -/
theorem gauss_lim_integral_lt_one (mu : ℝ × ℝ × ℝ) (R : ℝ) (hR : 0 < R) :
    integral3 (fun x y z => gauss_rescale_lim_3D x y z mu R) < 1 := by
  have hs : (0 : ℝ) < R / 3 := by linarith
  have hc : (0 : ℝ) < 0.5 * (R / 3) ^ (-2 : ℤ) := by
    rw [zpow_neg, zpow_two]
    exact mul_pos (by norm_num) (inv_pos.mpr (mul_pos hs hs))
  have hb : (0 : ℝ) < Real.sqrt (2 * Real.pi) * (R / 3) :=
    mul_pos (Real.sqrt_pos.mpr (by positivity)) hs
  have hH : (0 : ℝ) < 1 / (Real.sqrt (2 * Real.pi) * (R / 3)) ^ 3 :=
    one_div_pos.mpr (pow_pos hb 3)
  have hnorm : 1 / (Real.sqrt (2 * Real.pi) * (R / 3)) ^ 3 *
      Real.sqrt (Real.pi / (0.5 * (R / 3) ^ (-2 : ℤ))) ^ 3 = 1 := by
    have hne : (R / 3) ≠ 0 := ne_of_gt hs
    have h1 : Real.pi / (0.5 * (R / 3) ^ (-2 : ℤ)) =
        2 * Real.pi * (R / 3) ^ 2 := by
      rw [zpow_neg, zpow_two]
      field_simp
      ring
    rw [h1, Real.sqrt_mul (by positivity) ((R / 3) ^ 2),
      Real.sqrt_sq hs.le]
    exact one_div_mul_cancel (pow_ne_zero 3 (ne_of_gt hb))
  have hrw : ∀ x y z : ℝ, gauss_rescale_lim_3D x y z mu R =
      1 / (Real.sqrt (2 * Real.pi) * (R / 3)) ^ 3 *
        (Real.exp (-(0.5 * (R / 3) ^ (-2 : ℤ)) * (x - mu.1) ^ 2) *
         (Real.exp (-(0.5 * (R / 3) ^ (-2 : ℤ)) * (y - mu.2.1) ^ 2) *
          Real.exp (-(0.5 * (R / 3) ^ (-2 : ℤ)) * (z - mu.2.2) ^ 2))) *
        (if (x - mu.1) ^ 2 + (y - mu.2.1) ^ 2 + (z - mu.2.2) ^ 2 < R ^ 2
         then (1 : ℝ) else 0) := by
    intro x y z
    simp only [gauss_rescale_lim_3D]
    rw [gauss_rescale_prod]
  have h := cutoff_gaussian3_integral_lt
    (1 / (Real.sqrt (2 * Real.pi) * (R / 3)) ^ 3)
    (0.5 * (R / 3) ^ (-2 : ℤ)) mu.1 mu.2.1 mu.2.2 R hH hc hR hnorm
  unfold integral3
  simp only [hrw]
  convert h using 5

/-- Claim C8: `gauss_rescale_lim_3D` equals `gauss_rescale_3D` at every
point strictly inside the cutoff radius, vanishes at and beyond the
cutoff, and consequently (for `R > 0`) its integral over all space is
strictly less than `1`, short by the Gaussian mass beyond the cutoff. -/
theorem gauss_lim_matches (mu : ℝ × ℝ × ℝ) (R : ℝ) :
    (∀ x y z : ℝ,
      ((x - mu.1) ^ 2 + (y - mu.2.1) ^ 2 + (z - mu.2.2) ^ 2 < R ^ 2 →
        gauss_rescale_lim_3D x y z mu R = gauss_rescale_3D x y z mu R) ∧
      (R ^ 2 ≤ (x - mu.1) ^ 2 + (y - mu.2.1) ^ 2 + (z - mu.2.2) ^ 2 →
        gauss_rescale_lim_3D x y z mu R = 0)) ∧
    (0 < R →
      integral3 (fun x y z => gauss_rescale_lim_3D x y z mu R) < 1) := by
  constructor
  · intro x y z
    constructor
    · intro h
      simp only [gauss_rescale_lim_3D]
      rw [if_pos h, mul_one]
    · intro h
      simp only [gauss_rescale_lim_3D]
      rw [if_neg (not_lt.mpr h), mul_zero]
  · intro hR
    exact gauss_lim_integral_lt_one mu R hR

/-- Witness for C8 at `mu = (0,0,0)`, `R = 3`: inside point `(0,0,0)`,
boundary point `(3,0,0)`, and the strict total-mass deficit. -/
theorem gauss_lim_matches_w :
    gauss_rescale_lim_3D 0 0 0 (0, 0, 0) 3 =
      gauss_rescale_3D 0 0 0 (0, 0, 0) 3 ∧
    gauss_rescale_lim_3D 3 0 0 (0, 0, 0) 3 = 0 ∧
    integral3 (fun x y z => gauss_rescale_lim_3D x y z (0, 0, 0) 3) < 1 :=
  ⟨((gauss_lim_matches (0, 0, 0) 3).1 0 0 0).1 (by norm_num),
   ((gauss_lim_matches (0, 0, 0) 3).1 3 0 0).2 (by norm_num),
   (gauss_lim_matches (0, 0, 0) 3).2 (by norm_num)⟩
